import Mathlib

/-!
Verification of the tick-based simulation stepper of `reverie_offline.py`
(`ReverieServer.__init__`, `ReverieServer.start_server`, `sim_frontend`).

The embedding is shallow: Python dicts become association lists with
Python-dict update semantics (`dictInsert` replaces the value of an existing
key in place, otherwise appends), datetimes become seconds counters
(`Nat`, with a calendar day every 86400 seconds), the filesystem of
persisted snapshot trees becomes an association list from simulation code to
snapshot, and the blocking environment poll becomes a list of poll results
(`none` = no update available yet) consumed one per loop iteration.
Mutations of `self` are threaded explicitly through `ServerState`.
Python exceptions become an `Option String` error slot carried next to the
partially mutated state, mirroring the fact that an exception escapes
`start_server` while the mutations applied before it persist on `self`.
-/

/-- A tile coordinate (row, col), as used for `personas_tile` values. -/
abbrev Tile := Nat × Nat

/-- An event record `(subject, predicate, object, description)` attached to a
tile; the idle form has `none` for predicate, object and description. -/
structure EventRecord where
  subject : String
  predicate : Option String
  objectValue : Option String
  description : Option String
deriving DecidableEq

/-- The blank (idle) form of an event, as built at line 288 of the source:
`(event[0], None, None, None)`. -/
def blankOf (e : EventRecord) : EventRecord :=
  { subject := e.subject, predicate := none, objectValue := none, description := none }

/-- Association-list lookup keyed on the first component (Python `d[k]`,
returning `none` where Python raises `KeyError`). -/
def alookup {α β : Type} [DecidableEq α] (k : α) : List (α × β) → Option β
  | [] => none
  | kv :: rest => if kv.1 = k then some kv.2 else alookup k rest

/-- Python dict assignment `d[k] = v`: replaces the value of an existing key in
place (keeping its position), otherwise appends the new binding. -/
def dictInsert {α β : Type} [DecidableEq α] (d : List (α × β)) (k : α) (v : β) :
    List (α × β) :=
  if d.any (fun kv => decide (kv.1 = k)) then
    d.map (fun kv => if kv.1 = k then (k, v) else kv)
  else d ++ [(k, v)]

/-- The tile-event store: the set of events of every tile, represented as the
list of (tile, event) pairs currently present. -/
structure Maze where
  events : List (Tile × EventRecord)
deriving DecidableEq

/-- Modelled from the spec: `Maze.add_event_from_tile` (`maze_neo.py` is not in
the source slice); the TileEventStore contract makes it an idempotent insert
(adding an already-present identical record is a no-op). -/
def addEventFromTile (ev : EventRecord) (tile : Tile) (m : Maze) : Maze :=
  if (tile, ev) ∈ m.events then m else { events := m.events ++ [(tile, ev)] }

/-- Modelled from the spec: `Maze.remove_event_from_tile`; an idempotent delete
of the given record at the given tile. -/
def removeEventFromTile (ev : EventRecord) (tile : Tile) (m : Maze) : Maze :=
  { events := m.events.filter (fun te => decide (te ≠ (tile, ev))) }

/-- Modelled from the spec: `Maze.remove_subject_events_from_tile`; deletes
every record at the tile whose subject is the given one. -/
def removeSubjectEventsFromTile (subject : String) (tile : Tile) (m : Maze) : Maze :=
  { events := m.events.filter
      (fun te => decide (¬(te.1 = tile ∧ te.2.subject = subject))) }

/-- Modelled from the spec: `Maze.turn_event_from_tile_idle`; rewrites the
record at the tile matching the given one to its idle sentinel form, and
creates nothing when no match exists. -/
def turnEventFromTileIdle (ev : EventRecord) (tile : Tile) (m : Maze) : Maze :=
  { events := m.events.map
      (fun te => if te = (tile, ev) then (tile, blankOf ev) else te) }

/-- Modelled from the spec: the per-agent runtime state the stepper reads and
writes (the `persona.scratch` fields and the event accessors of
`persona/persona.py`, which is not in the source slice). `currEvent` stands
for `scratch.get_curr_event_and_desc()` and `currObjEvent` for
`scratch.get_curr_obj_event_and_desc()`. -/
structure Persona where
  name : String
  plannedPath : List Tile
  currEvent : EventRecord
  currObjEvent : EventRecord
  chat : String
  currTime : Option Nat
  currTile : Tile
deriving DecidableEq

/-- The new-day flag passed to a persona's move call: Python's
`"First day"`, `"New day"` or `False`. -/
inductive NewDay
  | firstDay
  | newDay
  | sameDay
deriving DecidableEq

/-- Calendar day of a time value (the source compares `strftime('%a %b %d')`
of two datetimes; with time in seconds from a midnight start, the day changes
exactly every 86400 seconds). -/
def dayOf (t : Nat) : Nat := t / 86400

/-- The new-day computation of lines 305-310 of the source. -/
def newDayOf (personaTime : Option Nat) (currTime : Nat) : NewDay :=
  match personaTime with
  | none => NewDay.firstDay
  | some t => if dayOf t ≠ dayOf currTime then NewDay.newDay else NewDay.sameDay

/-- One operation performed on the tile-event store, recorded in the order the
tick performs them. -/
inductive StoreOp
  | addEvent (ev : EventRecord) (tile : Tile)
  | removeEvent (ev : EventRecord) (tile : Tile)
  | removeSubject (subject : String) (tile : Tile)
  | idleEvent (ev : EventRecord) (tile : Tile)
deriving DecidableEq

/-- Whether a store operation adds a new event record. -/
def StoreOp.isAdd : StoreOp → Bool
  | .addEvent _ _ => true
  | _ => false

/-- Whether a store operation idles an event record. -/
def StoreOp.isIdle : StoreOp → Bool
  | .idleEvent _ _ => true
  | _ => false

/-- One persona's entry in a tick's movement batch:
`{movement, pronunciatio, description, chat}`. -/
structure MoveRec where
  movement : Tile
  pronunciatio : String
  description : String
  chat : String
deriving DecidableEq

/-- A persisted movement batch: one record per persona plus
`meta.curr_time`. -/
structure Movements where
  persona : List (String × MoveRec)
  metaCurrTime : Nat
deriving DecidableEq

/-- `game_obj_cleanup`: the pending-cleanup ledger mapping an object event to
the tile it was spawned on. -/
abbrev Ledger := List (EventRecord × Tile)

/-- The mutable state of a `ReverieServer` instance that the tick loop reads
and writes: the step counter, the clock, the persona registry with its tile
table, the tile-event store, the movement files written so far (keyed by step
index, standing for `movement/<step>.json`), and the `backend_data` payload
kept for the frontend call. -/
structure ServerState where
  step : Nat
  currTime : Nat
  secPerStep : Nat
  personas : List Persona
  personasTile : List (String × Tile)
  maze : Maze
  movementFiles : List (Nat × Movements)
  backendTime : Nat
  backendPos : List (String × Tile)
deriving DecidableEq

/-- The combined result of `persona.perceive` followed by `persona.move`:
next tile, pronunciatio, description, and the persona with whatever opaque
scratch mutations the cognition performed. -/
abbrev DecideResult := Tile × String × String × Persona

/-- The opaque perceive/decide cycle of one persona (external contract); it
may raise, which the embedding renders as `Except.error`. Arguments: the
maze, the full registry as currently visible, the persona being processed,
its current tile, the current time and the new-day flag. -/
abbrev DecideFn :=
  Maze → List Persona → Persona → Tile → Nat → NewDay → Except String DecideResult

/-- Lines 256-260 of the source: idle every ledger entry at its recorded tile,
in ledger order, returning the updated maze and the trace of store
operations. -/
def cleanupPhase : Ledger → Maze → Maze × List StoreOp
  | [], m => (m, [])
  | (ev, tile) :: rest, m =>
    let r := cleanupPhase rest (turnEventFromTileIdle ev tile m)
    (r.1, StoreOp.idleEvent ev tile :: r.2)

/-- The result of the persona-movement loop (or of one of its steps): the tile
table, the ledger, the maze, the trace of store operations, and the pending
exception if one was raised. -/
structure MovePhaseOut where
  tiles : List (String × Tile)
  ledger : Ledger
  maze : Maze
  trace : List StoreOp
  err : Option String
deriving DecidableEq

/-- Lines 264-290 of the source, for a single persona: move it to the tile the
frontend reports, refresh its subject events, and once its planned path is
exhausted spawn the object event, record it in `game_obj_cleanup` and remove
the object's blank placeholder at the new tile. -/
def moveStep (fd : List (String × Tile)) (p : Persona) (tiles : List (String × Tile))
    (ledger : Ledger) (maze : Maze) : MovePhaseOut :=
  match alookup p.name tiles with
  | none => ⟨tiles, ledger, maze, [], some ("KeyError: " ++ p.name)⟩
  | some currTile =>
    match alookup p.name fd with
    | none => ⟨tiles, ledger, maze, [], some ("KeyError: " ++ p.name)⟩
    | some newTile =>
      let tiles1 := dictInsert tiles p.name newTile
      let maze1 := removeSubjectEventsFromTile p.name currTile maze
      let maze2 := addEventFromTile p.currEvent newTile maze1
      if p.plannedPath = [] then
        let objEv := p.currObjEvent
        let ledger1 := dictInsert ledger objEv newTile
        let maze3 := addEventFromTile objEv newTile maze2
        let maze4 := removeEventFromTile (blankOf objEv) newTile maze3
        ⟨tiles1, ledger1, maze4,
          [StoreOp.removeSubject p.name currTile,
           StoreOp.addEvent p.currEvent newTile,
           StoreOp.addEvent objEv newTile,
           StoreOp.removeEvent (blankOf objEv) newTile], none⟩
      else
        ⟨tiles1, ledger, maze2,
          [StoreOp.removeSubject p.name currTile,
           StoreOp.addEvent p.currEvent newTile], none⟩

/-- The persona-movement loop over the registry in order; an exception stops
the loop with the mutations applied so far kept. -/
def movePhase (fd : List (String × Tile)) :
    List Persona → List (String × Tile) → Ledger → Maze → MovePhaseOut
  | [], tiles, ledger, maze => ⟨tiles, ledger, maze, [], none⟩
  | p :: ps, tiles, ledger, maze =>
    let o := moveStep fd p tiles ledger maze
    match o.err with
    | some e => ⟨o.tiles, o.ledger, o.maze, o.trace, some e⟩
    | none =>
      let r := movePhase fd ps o.tiles o.ledger o.maze
      ⟨r.tiles, r.ledger, r.maze, o.trace ++ r.trace, r.err⟩

/-- The result of the perceive/decide loop: the personas after their scratch
updates, the movement batch built so far, the updated `backend_data` persona
positions, and the pending exception if one was raised. -/
structure DecidePhaseOut where
  personas : List Persona
  movements : List (String × MoveRec)
  backendPos : List (String × Tile)
  err : Option String
deriving DecidableEq

/-- Lines 298-323 of the source: for each persona in registry order, set its
scratch tile and time, compute the new-day flag, run its perceive/decide
cycle and record its movement entry; `done` is the already-processed
portion of the registry. An exception stops the loop. -/
def decidePhase (f : DecideFn) (currTime : Nat) (tiles : List (String × Tile))
    (maze : Maze) :
    List Persona → List Persona → List (String × MoveRec) →
    List (String × Tile) → DecidePhaseOut
  | done, [], movements, backendPos => ⟨done, movements, backendPos, none⟩
  | done, p :: rest, movements, backendPos =>
    match alookup p.name tiles with
    | none => ⟨done ++ p :: rest, movements, backendPos, some ("KeyError: " ++ p.name)⟩
    | some tile =>
      let nd := newDayOf p.currTime currTime
      let p1 := { p with currTile := tile, currTime := some currTime }
      match f maze (done ++ p1 :: rest) p1 tile currTime nd with
      | .error e => ⟨done ++ p1 :: rest, movements, backendPos, some e⟩
      | .ok (nextTile, pron, desc, p2) =>
        let movements1 := dictInsert movements p.name
          { movement := nextTile, pronunciatio := pron, description := desc,
            chat := p2.chat }
        let backendPos1 := dictInsert backendPos p.name nextTile
        decidePhase f currTime tiles maze (done ++ [p2]) rest movements1 backendPos1

/-- The outcome of one tick body: the server state after it (with the
mutations applied up to any exception), the ledger, the trace of store
operations, and the exception if one escaped. -/
structure TickOut where
  state : ServerState
  ledger : Ledger
  trace : List StoreOp
  err : Option String
deriving DecidableEq

/-- Lines 252-349 of the source: the tick body run when the frontend returned
an environment update `fd`. It idles and clears the pending-cleanup ledger,
moves every persona, runs every perceive/decide cycle, writes the movement
batch keyed by the current step with `meta.curr_time` set to the current
clock, then advances the step by 1 and the clock by `sec_per_step`. On an
exception, the mutations applied before it persist and nothing afterwards
runs. -/
def serverTick (f : DecideFn) (fd : List (String × Tile)) (ledger : Ledger)
    (st : ServerState) : TickOut :=
  let c := cleanupPhase ledger st.maze
  let mo := movePhase fd st.personas st.personasTile [] c.1
  match mo.err with
  | some e =>
    ⟨{ st with maze := mo.maze, personasTile := mo.tiles }, mo.ledger,
      c.2 ++ mo.trace, some e⟩
  | none =>
    let dp := decidePhase f st.currTime mo.tiles mo.maze [] st.personas [] st.backendPos
    match dp.err with
    | some e =>
      ⟨{ st with
          maze := mo.maze
          personasTile := mo.tiles
          personas := dp.personas
          backendPos := dp.backendPos }, mo.ledger,
        c.2 ++ mo.trace, some e⟩
    | none =>
      let movements : Movements := { persona := dp.movements, metaCurrTime := st.currTime }
      ⟨{ st with
          maze := mo.maze
          personasTile := mo.tiles
          personas := dp.personas
          backendPos := dp.backendPos
          backendTime := st.currTime
          movementFiles := dictInsert st.movementFiles st.step movements
          step := st.step + 1
          currTime := st.currTime + st.secPerStep }, mo.ledger,
        c.2 ++ mo.trace, none⟩

/-- How a run of the `start_server` loop ended: `finished` when `int_counter`
reached 0, `waiting` when the supplied poll results ran out while the loop
was still going, `failed` when an exception escaped a tick. -/
inductive LoopResult
  | finished (st : ServerState) (ledger : Ledger) (counter : Int)
  | waiting (st : ServerState) (ledger : Ledger) (counter : Int)
  | failed (err : String) (st : ServerState) (ledger : Ledger) (counter : Int)
deriving DecidableEq

/-- Lines 239-352 of the source: the main while loop. Each iteration first
breaks if `int_counter == 0`, then consumes one poll result from the
frontend; `none` (no update yet) leaves everything untouched and the loop
retries, `some fd` runs the tick body and decrements the counter. The
counter is an `Int`, as a Python int can be negative. -/
def runLoop (f : DecideFn) (counter : Int) (ledger : Ledger) (st : ServerState) :
    List (Option (List (String × Tile))) → LoopResult
  | [] => if counter = 0 then .finished st ledger counter else .waiting st ledger counter
  | poll :: rest =>
    if counter = 0 then .finished st ledger counter
    else
      match poll with
      | none => runLoop f counter ledger st rest
      | some fd =>
        let t := serverTick f fd ledger st
        match t.err with
        | some e => .failed e t.state t.ledger counter
        | none => runLoop f (counter - 1) t.ledger t.state rest

/-- `ReverieServer.start_server(int_counter)`: seeds `backend_data` from the
clock and the frontend position table, starts with an empty
`game_obj_cleanup`, and enters the main loop. -/
def start_server (f : DecideFn) (st : ServerState) (counter : Int)
    (polls : List (Option (List (String × Tile)))) : LoopResult :=
  runLoop f counter [] { st with backendTime := st.currTime } polls

/-- The `backend_data` payload handed to `sim_frontend`: the clock string and
the last backend-reported persona positions. -/
structure BackendData where
  time : Nat
  persona : List (String × Tile)
deriving DecidableEq

/-- Lines 544-567 of the source, the headless environment bridge: copy every
backend-reported position into the module-wide `frontend_pos` table, build
the environment mapping by reading those entries back, and write it to
`environment/<step+1>.json`. Returns the updated `frontend_pos`, the
returned environment mapping, and the (key, content) pair of the file
written. -/
def sim_frontend (frontendPos : List (String × Tile)) (backendData : BackendData)
    (step : Nat) :
    List (String × Tile) × List (String × Tile) × (Nat × List (String × Tile)) :=
  let personaDict := backendData.persona
  let frontendPos1 :=
    personaDict.foldl (fun fp kv => dictInsert fp kv.1 kv.2) frontendPos
  let step1 := step + 1
  let environment :=
    personaDict.filterMap (fun kv => (alookup kv.1 frontendPos1).map (fun v => (kv.1, v)))
  (frontendPos1, environment, (step1, environment))

/-- The persisted metadata record `reverie/meta.json` of a snapshot. -/
structure ReverieMeta where
  forkSimCode : String
  startDate : Nat
  currTime : Nat
  secPerStep : Nat
  mazeName : String
  personaNames : List String
  step : Nat
deriving DecidableEq

/-- One persona's initial entry in a per-step environment record. -/
structure EnvEntry where
  x : Nat
  y : Nat
  startNode : Tile
deriving DecidableEq

/-- The persisted tree of one simulation snapshot: metadata, per-agent
sub-state, and the historical per-step environment and movement records. -/
structure Snapshot where
  meta : ReverieMeta
  personaStates : List (String × Persona)
  environment : List (Nat × List (String × EnvEntry))
  movement : List (Nat × Movements)
deriving DecidableEq

/-- The persistent storage: simulation code to snapshot tree. -/
abbrev Store := List (String × Snapshot)

/-- `os.path.exists` plus directory lookup over the storage model. -/
def storeLookup (code : String) (s : Store) : Option Snapshot := alookup code s

/-- `shutil.rmtree` of one snapshot tree. -/
def storeErase (code : String) (s : Store) : Store :=
  s.filter (fun kv => decide (kv.1 ≠ code))

/-- Writing one snapshot tree under a code. -/
def storeInsert (code : String) (snap : Snapshot) (s : Store) : Store :=
  dictInsert s code snap

/-- Lines 55-79 of `ReverieServer.__init__`: remove the target tree if it
already exists, copy the fork's whole tree to the target, and rewrite the
copied metadata's `fork_sim_code` field to the fork's code. `copyanything`
(from `global_methods`, not in the source slice) is modelled from the spec
as a directory-tree-level structural copy of every part of the snapshot;
it fails when the source tree is missing, which yields `none`. -/
def reverieInitStorage (forkSimCode simCode : String) (store : Store) :
    Option (Store × Snapshot) :=
  let store1 := if (storeLookup simCode store).isSome then storeErase simCode store else store
  match storeLookup forkSimCode store1 with
  | none => none
  | some forkSnap =>
    let snap := { forkSnap with meta := { forkSnap.meta with forkSimCode := forkSimCode } }
    some (storeInsert simCode snap store1, snap)

/-- Lines 135-152 of `ReverieServer.__init__`: register every persona named in
the metadata, reading its start tile from the step-indexed environment
record, loading its persisted sub-state, and publishing its current event at
that tile. A missing environment entry or persona sub-state is a load
failure. -/
def loadPersonasAux (personaStates : List (String × Persona))
    (env : List (String × EnvEntry)) :
    List String → List Persona → List (String × Tile) → Maze →
    Option (List Persona × List (String × Tile) × Maze)
  | [], ps, tiles, maze => some (ps, tiles, maze)
  | n :: rest, ps, tiles, maze =>
    match alookup n env, alookup n personaStates with
    | some entry, some persona =>
      loadPersonasAux personaStates env rest (ps ++ [persona])
        (dictInsert tiles n entry.startNode)
        (addEventFromTile persona.currEvent entry.startNode maze)
    | _, _ => none

/-- Lines 81-152 of `ReverieServer.__init__`: load the clock, step and
personas of the copied snapshot into a fresh server state. `Maze(maze_name)`
(from `maze_neo`, not in the source slice) is modelled from the spec as an
initially event-free tile store. -/
def loadServer (snap : Snapshot) : Option ServerState :=
  match alookup snap.meta.step snap.environment with
  | none => none
  | some env =>
    match loadPersonasAux snap.personaStates env snap.meta.personaNames [] []
        (Maze.mk []) with
    | none => none
    | some (ps, tiles, maze) =>
      some { step := snap.meta.step,
             currTime := snap.meta.currTime,
             secPerStep := snap.meta.secPerStep,
             personas := ps,
             personasTile := tiles,
             maze := maze,
             movementFiles := snap.movement,
             backendTime := snap.meta.currTime,
             backendPos := tiles }

/-- The whole of `ReverieServer.__init__`: fork-and-copy on storage, then load
the copied snapshot. -/
def reverieServerInit (forkSimCode simCode : String) (store : Store) :
    Option (Store × ServerState) :=
  match reverieInitStorage forkSimCode simCode store with
  | none => none
  | some (store', snap) =>
    match loadServer snap with
    | none => none
    | some st => some (store', st)

/-- Loading a simulation by code straight from storage. -/
def loadFromStore (simCode : String) (store : Store) : Option ServerState :=
  (storeLookup simCode store).bind loadServer

/-! ### Association-list lemmas -/

theorem alookup_map_replace {α β : Type} [DecidableEq α] (d : List (α × β)) (k : α) (v : β)
    (h : d.any (fun kv => decide (kv.1 = k)) = true) :
    alookup k (d.map (fun kv => if kv.1 = k then (k, v) else kv)) = some v := by
  induction d with
  | nil => simp at h
  | cons kv rest ih =>
    by_cases hk : kv.1 = k
    · simp [alookup, hk]
    · simp only [List.any_cons, Bool.or_eq_true, decide_eq_true_eq] at h
      rcases h with h | h
      · exact absurd h hk
      · simp [alookup, hk, ih h]

theorem alookup_map_replace_ne {α β : Type} [DecidableEq α] (d : List (α × β))
    (k k' : α) (v : β) (h : k' ≠ k) :
    alookup k' (d.map (fun kv => if kv.1 = k then (k, v) else kv)) = alookup k' d := by
  induction d with
  | nil => rfl
  | cons kv rest ih =>
    by_cases hk : kv.1 = k
    · have h1 : ¬(k = k') := fun e => h e.symm
      have h2 : ¬(kv.1 = k') := by rw [hk]; exact h1
      simp [alookup, hk, h1, h2, ih]
    · by_cases h2 : kv.1 = k'
      · simp only [List.map_cons, if_neg hk]
        simp [alookup, h2]
      · simp only [List.map_cons, if_neg hk]
        simp [alookup, h2, ih]

theorem alookup_none_of_any_false {α β : Type} [DecidableEq α] (d : List (α × β)) (k : α)
    (h : d.any (fun kv => decide (kv.1 = k)) = false) :
    alookup k d = none := by
  induction d with
  | nil => rfl
  | cons kv rest ih =>
    simp only [List.any_cons, Bool.or_eq_false_iff, decide_eq_false_iff_not] at h
    simp [alookup, h.1, ih (by simp [h.2])]

theorem alookup_append_of_none {α β : Type} [DecidableEq α] (d e : List (α × β)) (k : α)
    (h : alookup k d = none) : alookup k (d ++ e) = alookup k e := by
  induction d with
  | nil => rfl
  | cons kv rest ih =>
    by_cases hk : kv.1 = k
    · simp [alookup, hk] at h
    · simp only [alookup, hk, if_false] at h
      simpa [alookup, hk] using ih h

theorem alookup_append_of_some {α β : Type} [DecidableEq α] (d e : List (α × β)) (k : α)
    (v : β) (h : alookup k d = some v) : alookup k (d ++ e) = some v := by
  induction d with
  | nil => simp [alookup] at h
  | cons kv rest ih =>
    by_cases hk : kv.1 = k
    · simp only [alookup, hk, if_true] at h
      simp [alookup, hk, h]
    · simp only [alookup, hk, if_false] at h
      simpa [alookup, hk] using ih h

theorem alookup_dictInsert_self {α β : Type} [DecidableEq α] (d : List (α × β))
    (k : α) (v : β) : alookup k (dictInsert d k v) = some v := by
  cases hany : d.any (fun kv => decide (kv.1 = k)) with
  | true =>
    simp only [dictInsert, hany, if_true]
    exact alookup_map_replace d k v hany
  | false =>
    simp only [dictInsert, hany, Bool.false_eq_true, if_false]
    rw [alookup_append_of_none d [(k, v)] k (alookup_none_of_any_false d k hany)]
    simp [alookup]

theorem alookup_dictInsert_ne {α β : Type} [DecidableEq α] (d : List (α × β))
    (k k' : α) (v : β) (h : k' ≠ k) :
    alookup k' (dictInsert d k v) = alookup k' d := by
  cases hany : d.any (fun kv => decide (kv.1 = k)) with
  | true =>
    simp only [dictInsert, hany, if_true]
    exact alookup_map_replace_ne d k k' v h
  | false =>
    simp only [dictInsert, hany, Bool.false_eq_true, if_false]
    cases hd : alookup k' d with
    | some w => exact alookup_append_of_some d [(k, v)] k' w hd
    | none =>
      rw [alookup_append_of_none d [(k, v)] k' hd]
      simp only [alookup, ite_eq_right_iff]
      exact fun e => absurd e.symm h

theorem isSome_alookup_dictInsert {α β : Type} [DecidableEq α] (d : List (α × β))
    (n k : α) (v : β) (h : (alookup n d).isSome = true ∨ n = k) :
    (alookup n (dictInsert d k v)).isSome = true := by
  by_cases hn : n = k
  · subst hn
    rw [alookup_dictInsert_self]
    rfl
  · rw [alookup_dictInsert_ne d k n v hn]
    rcases h with h | h
    · exact h
    · exact absurd h hn

theorem mem_dictInsert {α β : Type} [DecidableEq α] (d : List (α × β)) (k : α) (v : β)
    (x : α × β) (h : x ∈ dictInsert d k v) : x ∈ d ∨ x = (k, v) := by
  unfold dictInsert at h
  cases hany : d.any (fun kv => decide (kv.1 = k)) with
  | true =>
    simp only [hany, if_true] at h
    rcases List.mem_map.mp h with ⟨y, hy, hxy⟩
    by_cases hk : y.1 = k
    · right
      rw [if_pos hk] at hxy
      exact hxy.symm
    · left
      rw [if_neg hk] at hxy
      exact hxy ▸ hy
  | false =>
    simp only [hany, Bool.false_eq_true, if_false] at h
    rcases List.mem_append.mp h with h | h
    · exact Or.inl h
    · exact Or.inr (by simpa using h)

/-! ### Phase lemmas -/

theorem cleanupPhase_trace (ledger : Ledger) (m : Maze) :
    (cleanupPhase ledger m).2 = ledger.map (fun et => StoreOp.idleEvent et.1 et.2) := by
  induction ledger generalizing m with
  | nil => rfl
  | cons et rest ih =>
    cases et with
    | mk ev tile => simp [cleanupPhase, ih]

theorem moveStep_ok (fd : List (String × Tile)) (p : Persona)
    (tiles : List (String × Tile)) (ledger : Ledger) (maze : Maze)
    (currTile newTile : Tile)
    (ht : alookup p.name tiles = some currTile)
    (hf : alookup p.name fd = some newTile) :
    (moveStep fd p tiles ledger maze).err = none ∧
    (moveStep fd p tiles ledger maze).tiles = dictInsert tiles p.name newTile := by
  unfold moveStep
  rw [ht, hf]
  by_cases hp : p.plannedPath = [] <;> simp [hp]

theorem moveStep_trace_no_idle (fd : List (String × Tile)) (p : Persona)
    (tiles : List (String × Tile)) (ledger : Ledger) (maze : Maze) :
    ∀ op ∈ (moveStep fd p tiles ledger maze).trace, op.isIdle = false := by
  unfold moveStep
  cases h1 : alookup p.name tiles with
  | none => simp
  | some currTile =>
    cases h2 : alookup p.name fd with
    | none => simp
    | some newTile =>
      by_cases hp : p.plannedPath = [] <;> simp [hp, StoreOp.isIdle]

theorem moveStep_ledger_mem (fd : List (String × Tile)) (p : Persona)
    (tiles : List (String × Tile)) (ledger : Ledger) (maze : Maze)
    (et : EventRecord × Tile) (h : et ∈ (moveStep fd p tiles ledger maze).ledger) :
    et ∈ ledger ∨ (p.plannedPath = [] ∧ et.1 = p.currObjEvent) := by
  unfold moveStep at h
  cases h1 : alookup p.name tiles with
  | none =>
    rw [h1] at h
    exact Or.inl h
  | some currTile =>
    rw [h1] at h
    cases h2 : alookup p.name fd with
    | none =>
      rw [h2] at h
      exact Or.inl h
    | some newTile =>
      rw [h2] at h
      by_cases hp : p.plannedPath = []
      · simp only [hp, if_true] at h
        rcases mem_dictInsert _ _ _ _ h with h | h
        · exact Or.inl h
        · exact Or.inr ⟨hp, by rw [h]⟩
      · simp only [hp, if_false] at h
        exact Or.inl h

theorem movePhase_trace_no_idle (fd : List (String × Tile)) (ps : List Persona) :
    ∀ tiles ledger maze, ∀ op ∈ (movePhase fd ps tiles ledger maze).trace,
      op.isIdle = false := by
  induction ps with
  | nil =>
    intro tiles ledger maze op hop
    simp [movePhase] at hop
  | cons p ps ih =>
    intro tiles ledger maze op hop
    simp only [movePhase] at hop
    cases he : (moveStep fd p tiles ledger maze).err with
    | some e =>
      rw [he] at hop
      exact moveStep_trace_no_idle fd p tiles ledger maze op hop
    | none =>
      rw [he] at hop
      simp only [List.mem_append] at hop
      rcases hop with hop | hop
      · exact moveStep_trace_no_idle fd p tiles ledger maze op hop
      · exact ih _ _ _ op hop

theorem movePhase_ledger_mem (fd : List (String × Tile)) (ps : List Persona) :
    ∀ tiles ledger maze, ∀ et ∈ (movePhase fd ps tiles ledger maze).ledger,
      et ∈ ledger ∨ ∃ p ∈ ps, p.plannedPath = [] ∧ et.1 = p.currObjEvent := by
  induction ps with
  | nil =>
    intro tiles ledger maze et het
    exact Or.inl het
  | cons p ps ih =>
    intro tiles ledger maze et het
    simp only [movePhase] at het
    cases he : (moveStep fd p tiles ledger maze).err with
    | some e =>
      rw [he] at het
      rcases moveStep_ledger_mem fd p tiles ledger maze et het with h | h
      · exact Or.inl h
      · exact Or.inr ⟨p, List.mem_cons_self p ps, h⟩
    | none =>
      rw [he] at het
      rcases ih _ _ _ et het with h | ⟨q, hq, hq2⟩
      · rcases moveStep_ledger_mem fd p tiles ledger maze et h with h | h
        · exact Or.inl h
        · exact Or.inr ⟨p, List.mem_cons_self p ps, h⟩
      · exact Or.inr ⟨q, List.mem_cons_of_mem p hq, hq2⟩

theorem movePhase_ok (fd : List (String × Tile)) (ps : List Persona) :
    ∀ tiles ledger maze,
    (∀ p ∈ ps, (alookup p.name tiles).isSome = true) →
    (∀ p ∈ ps, (alookup p.name fd).isSome = true) →
    (movePhase fd ps tiles ledger maze).err = none ∧
    (∀ n, ((alookup n tiles).isSome = true ∨ n ∈ ps.map Persona.name) →
      (alookup n (movePhase fd ps tiles ledger maze).tiles).isSome = true) := by
  induction ps with
  | nil =>
    intro tiles ledger maze _ _
    refine ⟨rfl, ?_⟩
    intro n hn
    rcases hn with hn | hn
    · exact hn
    · simp at hn
  | cons p ps ih =>
    intro tiles ledger maze h1 h2
    obtain ⟨ct, hct⟩ := Option.isSome_iff_exists.mp (h1 p (List.mem_cons_self p ps))
    obtain ⟨nt, hnt⟩ := Option.isSome_iff_exists.mp (h2 p (List.mem_cons_self p ps))
    obtain ⟨he, htiles⟩ := moveStep_ok fd p tiles ledger maze ct nt hct hnt
    have h1' : ∀ q ∈ ps, (alookup q.name
        (moveStep fd p tiles ledger maze).tiles).isSome = true := by
      intro q hq
      rw [htiles]
      exact isSome_alookup_dictInsert tiles q.name p.name nt
        (Or.inl (h1 q (List.mem_cons_of_mem p hq)))
    have h2' : ∀ q ∈ ps, (alookup q.name fd).isSome = true :=
      fun q hq => h2 q (List.mem_cons_of_mem p hq)
    obtain ⟨ihe, ihcov⟩ := ih (moveStep fd p tiles ledger maze).tiles
      (moveStep fd p tiles ledger maze).ledger (moveStep fd p tiles ledger maze).maze
      h1' h2'
    constructor
    · simp only [movePhase, he, ihe]
    · intro n hn
      simp only [movePhase, he]
      apply ihcov
      rcases hn with hn | hn
      · left
        rw [htiles]
        exact isSome_alookup_dictInsert tiles n p.name nt (Or.inl hn)
      · simp only [List.map_cons, List.mem_cons] at hn
        rcases hn with hn | hn
        · left
          rw [htiles, hn]
          exact isSome_alookup_dictInsert tiles p.name p.name nt (Or.inr rfl)
        · exact Or.inr hn

/-- The assumption, used for the termination results, that every
perceive/decide call returns normally and keeps the persona's name. -/
def DecideTotal (f : DecideFn) : Prop :=
  ∀ maze ps p tile time nd,
    ∃ r : DecideResult, f maze ps p tile time nd = Except.ok r ∧ r.2.2.2.name = p.name

theorem decidePhase_ok (f : DecideFn) (hf : DecideTotal f) (currTime : Nat)
    (tiles : List (String × Tile)) (maze : Maze) (ps : List Persona) :
    ∀ done movements backendPos,
    (∀ p ∈ ps, (alookup p.name tiles).isSome = true) →
    (decidePhase f currTime tiles maze done ps movements backendPos).err = none ∧
    (decidePhase f currTime tiles maze done ps movements backendPos).personas.map
        Persona.name = done.map Persona.name ++ ps.map Persona.name := by
  induction ps with
  | nil =>
    intro done movements backendPos _
    exact ⟨rfl, by simp [decidePhase]⟩
  | cons p rest ih =>
    intro done movements backendPos hcov
    obtain ⟨tile, htile⟩ := Option.isSome_iff_exists.mp (hcov p (List.mem_cons_self p rest))
    have hcov' : ∀ q ∈ rest, (alookup q.name tiles).isSome = true :=
      fun q hq => hcov q (List.mem_cons_of_mem p hq)
    obtain ⟨r, hr, hname⟩ := hf maze
      (done ++ { p with currTile := tile, currTime := some currTime } :: rest)
      { p with currTile := tile, currTime := some currTime } tile currTime
      (newDayOf p.currTime currTime)
    obtain ⟨nt, pron, desc, p2⟩ := r
    obtain ⟨ihe, ihn⟩ := ih (done ++ [p2])
      (dictInsert movements p.name
        { movement := nt, pronunciatio := pron, description := desc, chat := p2.chat })
      (dictInsert backendPos p.name nt) hcov'
    constructor
    · simp only [decidePhase, htile, hr, ihe]
    · simp only [decidePhase, htile, hr, ihn]
      simp only at hname
      simp [hname, List.append_assoc]

theorem decidePhase_movements (f : DecideFn) (currTime : Nat)
    (tiles : List (String × Tile)) (maze : Maze) (ps : List Persona) :
    ∀ done movements backendPos,
    (decidePhase f currTime tiles maze done ps movements backendPos).err = none →
    ∀ n, ((alookup n movements).isSome = true ∨ n ∈ ps.map Persona.name) →
    (alookup n
      (decidePhase f currTime tiles maze done ps movements backendPos).movements).isSome
      = true := by
  induction ps with
  | nil =>
    intro done movements backendPos _ n hn
    rcases hn with hn | hn
    · exact hn
    · simp at hn
  | cons p rest ih =>
    intro done movements backendPos herr n hn
    cases htile : alookup p.name tiles with
    | none => simp [decidePhase, htile] at herr
    | some tile =>
      cases hr : f maze (done ++ { p with currTile := tile, currTime := some currTime }
          :: rest) { p with currTile := tile, currTime := some currTime } tile currTime
          (newDayOf p.currTime currTime) with
      | error e => simp [decidePhase, htile, hr] at herr
      | ok r =>
        obtain ⟨nt, pron, desc, p2⟩ := r
        simp only [decidePhase, htile, hr] at herr ⊢
        apply ih (done ++ [p2]) _ _ herr
        rcases hn with hn | hn
        · exact Or.inl (isSome_alookup_dictInsert movements n p.name _ (Or.inl hn))
        · simp only [List.map_cons, List.mem_cons] at hn
          rcases hn with hn | hn
          · exact Or.inl (isSome_alookup_dictInsert movements n p.name _ (Or.inr hn))
          · exact Or.inr hn

/-- The move-phase output of one tick body. -/
def tickMovePhase (fd : List (String × Tile)) (ledger : Ledger) (st : ServerState) :
    MovePhaseOut :=
  movePhase fd st.personas st.personasTile [] (cleanupPhase ledger st.maze).1

/-- The decide-phase output of one tick body (reached when the move phase
raised no exception). -/
def tickDecidePhase (f : DecideFn) (fd : List (String × Tile)) (ledger : Ledger)
    (st : ServerState) : DecidePhaseOut :=
  decidePhase f st.currTime (tickMovePhase fd ledger st).tiles
    (tickMovePhase fd ledger st).maze [] st.personas [] st.backendPos

theorem serverTick_trace (f : DecideFn) (fd : List (String × Tile)) (ledger : Ledger)
    (st : ServerState) :
    (serverTick f fd ledger st).trace =
      (cleanupPhase ledger st.maze).2 ++ (tickMovePhase fd ledger st).trace := by
  unfold serverTick tickMovePhase
  cases h1 : (movePhase fd st.personas st.personasTile []
      (cleanupPhase ledger st.maze).1).err with
  | some e => simp [h1]
  | none =>
    cases h2 : (decidePhase f st.currTime (movePhase fd st.personas st.personasTile []
        (cleanupPhase ledger st.maze).1).tiles (movePhase fd st.personas st.personasTile []
        (cleanupPhase ledger st.maze).1).maze [] st.personas [] st.backendPos).err with
    | some e => simp [h1, h2]
    | none => simp [h1, h2]

theorem serverTick_ledger (f : DecideFn) (fd : List (String × Tile)) (ledger : Ledger)
    (st : ServerState) :
    (serverTick f fd ledger st).ledger = (tickMovePhase fd ledger st).ledger := by
  unfold serverTick tickMovePhase
  cases h1 : (movePhase fd st.personas st.personasTile []
      (cleanupPhase ledger st.maze).1).err with
  | some e => simp [h1]
  | none =>
    cases h2 : (decidePhase f st.currTime (movePhase fd st.personas st.personasTile []
        (cleanupPhase ledger st.maze).1).tiles (movePhase fd st.personas st.personasTile []
        (cleanupPhase ledger st.maze).1).maze [] st.personas [] st.backendPos).err with
    | some e => simp [h1, h2]
    | none => simp [h1, h2]

theorem serverTick_err_iff (f : DecideFn) (fd : List (String × Tile)) (ledger : Ledger)
    (st : ServerState) :
    (serverTick f fd ledger st).err = none ↔
      ((tickMovePhase fd ledger st).err = none ∧
       (tickDecidePhase f fd ledger st).err = none) := by
  unfold serverTick tickDecidePhase tickMovePhase
  cases h1 : (movePhase fd st.personas st.personasTile []
      (cleanupPhase ledger st.maze).1).err with
  | some e => simp [h1]
  | none =>
    cases h2 : (decidePhase f st.currTime (movePhase fd st.personas st.personasTile []
        (cleanupPhase ledger st.maze).1).tiles (movePhase fd st.personas st.personasTile []
        (cleanupPhase ledger st.maze).1).maze [] st.personas [] st.backendPos).err with
    | some e => simp [h1, h2]
    | none => simp [h1, h2]

theorem serverTick_ok_eq (f : DecideFn) (fd : List (String × Tile)) (ledger : Ledger)
    (st : ServerState)
    (h1 : (tickMovePhase fd ledger st).err = none)
    (h2 : (tickDecidePhase f fd ledger st).err = none) :
    serverTick f fd ledger st =
      ⟨{ st with
          maze := (tickMovePhase fd ledger st).maze
          personasTile := (tickMovePhase fd ledger st).tiles
          personas := (tickDecidePhase f fd ledger st).personas
          backendPos := (tickDecidePhase f fd ledger st).backendPos
          backendTime := st.currTime
          movementFiles := dictInsert st.movementFiles st.step
            ⟨(tickDecidePhase f fd ledger st).movements, st.currTime⟩
          step := st.step + 1
          currTime := st.currTime + st.secPerStep },
        (tickMovePhase fd ledger st).ledger,
        (cleanupPhase ledger st.maze).2 ++ (tickMovePhase fd ledger st).trace, none⟩ := by
  unfold tickMovePhase at h1
  unfold tickDecidePhase tickMovePhase at h2
  unfold serverTick tickDecidePhase tickMovePhase
  simp only [h1, h2]

theorem serverTick_err_state (f : DecideFn) (fd : List (String × Tile)) (ledger : Ledger)
    (st : ServerState) (e : String)
    (h : (serverTick f fd ledger st).err = some e) :
    (serverTick f fd ledger st).state.movementFiles = st.movementFiles ∧
    (serverTick f fd ledger st).state.step = st.step ∧
    (serverTick f fd ledger st).state.currTime = st.currTime := by
  unfold serverTick at h ⊢
  cases h1 : (movePhase fd st.personas st.personasTile []
      (cleanupPhase ledger st.maze).1).err with
  | some e2 => simp [h1]
  | none =>
    cases h2 : (decidePhase f st.currTime (movePhase fd st.personas st.personasTile []
        (cleanupPhase ledger st.maze).1).tiles (movePhase fd st.personas st.personasTile []
        (cleanupPhase ledger st.maze).1).maze [] st.personas [] st.backendPos).err with
    | some e2 => simp [h1, h2]
    | none => simp [h1, h2] at h

theorem serverTick_ok_fields (f : DecideFn) (fd : List (String × Tile)) (ledger : Ledger)
    (st : ServerState) (h : (serverTick f fd ledger st).err = none) :
    (serverTick f fd ledger st).state.step = st.step + 1 ∧
    (serverTick f fd ledger st).state.currTime = st.currTime + st.secPerStep ∧
    (serverTick f fd ledger st).state.secPerStep = st.secPerStep := by
  obtain ⟨h1, h2⟩ := (serverTick_err_iff f fd ledger st).mp h
  rw [serverTick_ok_eq f fd ledger st h1 h2]
  exact ⟨rfl, rfl, rfl⟩

theorem serverTick_total (f : DecideFn) (hf : DecideTotal f) (fd : List (String × Tile))
    (ledger : Ledger) (st : ServerState)
    (ht : ∀ p ∈ st.personas, (alookup p.name st.personasTile).isSome = true)
    (hfd : ∀ p ∈ st.personas, (alookup p.name fd).isSome = true) :
    (serverTick f fd ledger st).err = none ∧
    (serverTick f fd ledger st).state.step = st.step + 1 ∧
    (serverTick f fd ledger st).state.currTime = st.currTime + st.secPerStep ∧
    (serverTick f fd ledger st).state.secPerStep = st.secPerStep ∧
    (serverTick f fd ledger st).state.personas.map Persona.name
      = st.personas.map Persona.name ∧
    (∀ p ∈ (serverTick f fd ledger st).state.personas,
      (alookup p.name (serverTick f fd ledger st).state.personasTile).isSome = true) := by
  obtain ⟨hmo, hmocov⟩ := movePhase_ok fd st.personas st.personasTile []
    (cleanupPhase ledger st.maze).1 ht hfd
  have hmo' : (tickMovePhase fd ledger st).err = none := hmo
  have htiles' : ∀ p ∈ st.personas,
      (alookup p.name (tickMovePhase fd ledger st).tiles).isSome = true := by
    intro p hp
    exact hmocov p.name (Or.inr (List.mem_map_of_mem Persona.name hp))
  obtain ⟨hdp, hdpnames⟩ := decidePhase_ok f hf st.currTime
    (tickMovePhase fd ledger st).tiles (tickMovePhase fd ledger st).maze st.personas
    [] [] st.backendPos htiles'
  have hdp' : (tickDecidePhase f fd ledger st).err = none := hdp
  have heq := serverTick_ok_eq f fd ledger st hmo' hdp'
  have hnames : (serverTick f fd ledger st).state.personas.map Persona.name
      = st.personas.map Persona.name := by
    rw [heq]
    simpa using hdpnames
  refine ⟨?_, ?_, ?_, ?_, hnames, ?_⟩
  · rw [heq]
  · rw [heq]
  · rw [heq]
  · rw [heq]
  · intro p hp
    have hpn : p.name ∈ st.personas.map Persona.name := by
      rw [← hnames]
      exact List.mem_map_of_mem Persona.name hp
    rw [heq]
    exact hmocov p.name (Or.inr hpn)

theorem runLoop_total (f : DecideFn) (hf : DecideTotal f) :
    ∀ (polls : List (Option (List (String × Tile)))) (k : Nat) (ledger : Ledger)
      (st : ServerState),
    (∀ p ∈ st.personas, (alookup p.name st.personasTile).isSome = true) →
    (∀ fd, some fd ∈ polls → ∀ n ∈ st.personas.map Persona.name,
      (alookup n fd).isSome = true) →
    k ≤ polls.countP Option.isSome →
    ∃ st' l', runLoop f (k : Int) ledger st polls = LoopResult.finished st' l' 0 ∧
      st'.step = st.step + k ∧ st'.currTime = st.currTime + k * st.secPerStep ∧
      st'.secPerStep = st.secPerStep ∧
      st'.personas.map Persona.name = st.personas.map Persona.name := by
  intro polls
  induction polls with
  | nil =>
    intro k ledger st _ _ hk
    simp only [List.countP_nil, Nat.le_zero] at hk
    subst hk
    exact ⟨st, ledger, by simp [runLoop], by simp, by simp, rfl, rfl⟩
  | cons poll rest ih =>
    intro k ledger st h1 h2 hk
    cases k with
    | zero =>
      exact ⟨st, ledger, by simp [runLoop], by simp, by simp, rfl, rfl⟩
    | succ k' =>
      have hc : ((k' + 1 : Nat) : Int) ≠ 0 := by
        intro h
        omega
      cases poll with
      | none =>
        have hk' : k' + 1 ≤ rest.countP Option.isSome := by
          simpa [List.countP_cons] using hk
        obtain ⟨st', l', hrun, hstep, htime, hsec, hnames⟩ :=
          ih (k' + 1) ledger st h1 (fun fd hfd => h2 fd (List.mem_cons_of_mem _ hfd)) hk'
        refine ⟨st', l', ?_, hstep, htime, hsec, hnames⟩
        simp only [runLoop, if_neg hc]
        exact hrun
      | some fd =>
        have hfd : ∀ p ∈ st.personas, (alookup p.name fd).isSome = true := by
          intro p hp
          exact h2 fd (List.mem_cons_self _ _) p.name (List.mem_map_of_mem Persona.name hp)
        obtain ⟨herr, hstep1, htime1, hsec1, hnames1, hcov1⟩ :=
          serverTick_total f hf fd ledger st h1 hfd
        have hk' : k' ≤ rest.countP Option.isSome := by
          simp only [List.countP_cons, Option.isSome_some, if_true] at hk
          omega
        have h2' : ∀ fd2, some fd2 ∈ rest →
            ∀ n ∈ (serverTick f fd ledger st).state.personas.map Persona.name,
            (alookup n fd2).isSome = true := by
          intro fd2 hfd2 n hn
          rw [hnames1] at hn
          exact h2 fd2 (List.mem_cons_of_mem _ hfd2) n hn
        obtain ⟨st', l', hrun, hstep, htime, hsec, hnames⟩ :=
          ih k' (serverTick f fd ledger st).ledger (serverTick f fd ledger st).state
            hcov1 h2' hk'
        have hcast : ((k' + 1 : Nat) : Int) - 1 = (k' : Int) := by omega
        refine ⟨st', l', ?_, ?_, ?_, ?_, ?_⟩
        · simp only [runLoop, if_neg hc, herr, hcast]
          exact hrun
        · omega
        · rw [htime, htime1, hsec1, add_one_mul]
          omega
        · rw [hsec, hsec1]
        · rw [hnames, hnames1]

theorem runLoop_finished_adds (f : DecideFn) :
    ∀ (polls : List (Option (List (String × Tile)))) (k : Nat) (ledger : Ledger)
      (st st' : ServerState) (l' : Ledger) (c' : Int),
    runLoop f (k : Int) ledger st polls = LoopResult.finished st' l' c' →
    st'.step = st.step + k ∧ st'.currTime = st.currTime + k * st.secPerStep ∧
    st'.secPerStep = st.secPerStep := by
  intro polls
  induction polls with
  | nil =>
    intro k ledger st st' l' c' h
    simp only [runLoop] at h
    by_cases hk : ((k : Nat) : Int) = 0
    · rw [if_pos hk] at h
      injection h with e1 e2 e3
      have : k = 0 := by omega
      subst this
      subst e1
      simp
    · rw [if_neg hk] at h
      exact absurd h (by simp)
  | cons poll rest ih =>
    intro k ledger st st' l' c' h
    cases hk0 : decide (k = 0) with
    | true =>
      have hk : k = 0 := of_decide_eq_true hk0
      subst hk
      simp only [runLoop, Nat.cast_zero, if_pos rfl] at h
      injection h with e1 e2 e3
      subst e1
      simp
    | false =>
      have hk : k ≠ 0 := of_decide_eq_false hk0
      have hc : ((k : Nat) : Int) ≠ 0 := by omega
      cases poll with
      | none =>
        simp only [runLoop, if_neg hc] at h
        exact ih k ledger st st' l' c' h
      | some fd =>
        simp only [runLoop, if_neg hc] at h
        cases herr : (serverTick f fd ledger st).err with
        | some e =>
          simp only [herr] at h
          exact absurd h (by simp)
        | none =>
          simp only [herr] at h
          obtain ⟨k'', hk''⟩ : ∃ k'', k = k'' + 1 := ⟨k - 1, by omega⟩
          subst hk''
          have hcast : ((k'' + 1 : Nat) : Int) - 1 = (k'' : Int) := by omega
          rw [hcast] at h
          obtain ⟨hstep, htime, hsec⟩ :=
            ih k'' (serverTick f fd ledger st).ledger (serverTick f fd ledger st).state
              st' l' c' h
          obtain ⟨hstep1, htime1, hsec1⟩ := serverTick_ok_fields f fd ledger st herr
          refine ⟨by omega, ?_, by rw [hsec, hsec1]⟩
          rw [htime, htime1, hsec1, Nat.succ_mul]
          omega

theorem runLoop_neg (f : DecideFn) (hf : DecideTotal f) :
    ∀ (polls : List (Option (List (String × Tile)))) (c : Int) (ledger : Ledger)
      (st : ServerState),
    c < 0 →
    (∀ p ∈ st.personas, (alookup p.name st.personasTile).isSome = true) →
    (∀ fd, some fd ∈ polls → ∀ n ∈ st.personas.map Persona.name,
      (alookup n fd).isSome = true) →
    ∃ st' l' c', runLoop f c ledger st polls = LoopResult.waiting st' l' c' ∧ c' < 0 := by
  intro polls
  induction polls with
  | nil =>
    intro c ledger st hc _ _
    have hne : c ≠ 0 := by omega
    exact ⟨st, ledger, c, by simp [runLoop, hne], hc⟩
  | cons poll rest ih =>
    intro c ledger st hc h1 h2
    have hne : c ≠ 0 := by omega
    cases poll with
    | none =>
      obtain ⟨st', l', c', hrun, hc'⟩ :=
        ih c ledger st hc h1 (fun fd hfd => h2 fd (List.mem_cons_of_mem _ hfd))
      refine ⟨st', l', c', ?_, hc'⟩
      simp only [runLoop, if_neg hne]
      exact hrun
    | some fd =>
      have hfd : ∀ p ∈ st.personas, (alookup p.name fd).isSome = true := by
        intro p hp
        exact h2 fd (List.mem_cons_self _ _) p.name (List.mem_map_of_mem Persona.name hp)
      obtain ⟨herr, _, _, _, hnames1, hcov1⟩ := serverTick_total f hf fd ledger st h1 hfd
      have h2' : ∀ fd2, some fd2 ∈ rest →
          ∀ n ∈ (serverTick f fd ledger st).state.personas.map Persona.name,
          (alookup n fd2).isSome = true := by
        intro fd2 hfd2 n hn
        rw [hnames1] at hn
        exact h2 fd2 (List.mem_cons_of_mem _ hfd2) n hn
      obtain ⟨st', l', c', hrun, hc'⟩ :=
        ih (c - 1) (serverTick f fd ledger st).ledger (serverTick f fd ledger st).state
          (by omega) hcov1 h2'
      refine ⟨st', l', c', ?_, hc'⟩
      simp only [runLoop, if_neg hne, herr]
      exact hrun

/-! ### Storage lemmas -/

theorem storeLookup_erase_ne (code c' : String) (s : Store) (h : c' ≠ code) :
    storeLookup c' (storeErase code s) = storeLookup c' s := by
  induction s with
  | nil => rfl
  | cons kv rest ih =>
    by_cases hkv : kv.1 = code
    · have hkc : ¬(kv.1 = c') := by
        rw [hkv]
        exact fun e => h e.symm
      have hfil : storeErase code (kv :: rest) = storeErase code rest := by
        simp [storeErase, List.filter_cons, hkv]
      rw [hfil, ih]
      simp [storeLookup, alookup, hkc]
    · have hfil : storeErase code (kv :: rest) = kv :: storeErase code rest := by
        simp [storeErase, List.filter_cons, hkv]
      rw [hfil]
      by_cases hkc : kv.1 = c'
      · simp [storeLookup, alookup, hkc]
      · simp only [storeLookup, alookup, hkc, if_false]
        exact ih

theorem storeLookup_insert_self (code : String) (snap : Snapshot) (s : Store) :
    storeLookup code (storeInsert code snap s) = some snap :=
  alookup_dictInsert_self s code snap

theorem storeLookup_insert_ne (code c' : String) (snap : Snapshot) (s : Store)
    (h : c' ≠ code) :
    storeLookup c' (storeInsert code snap s) = storeLookup c' s :=
  alookup_dictInsert_ne s code c' snap h

theorem reverieInitStorage_eq (fork sim : String) (store : Store) (snapA : Snapshot)
    (hne : fork ≠ sim) (hA : storeLookup fork store = some snapA) :
    reverieInitStorage fork sim store =
      some (storeInsert sim
              { snapA with meta := { snapA.meta with forkSimCode := fork } }
              (if (storeLookup sim store).isSome then storeErase sim store else store),
            { snapA with meta := { snapA.meta with forkSimCode := fork } }) := by
  unfold reverieInitStorage
  have h1 : storeLookup fork
      (if (storeLookup sim store).isSome then storeErase sim store else store)
      = some snapA := by
    by_cases hs : (storeLookup sim store).isSome = true
    · rw [if_pos hs, storeLookup_erase_ne sim fork store hne]
      exact hA
    · rw [if_neg hs]
      exact hA
  simp only [h1]

/-! ### Frontend lemmas -/

theorem alookup_foldl_dictInsert_not_mem {α β : Type} [DecidableEq α]
    (l : List (α × β)) :
    ∀ (d : List (α × β)) (k : α), k ∉ l.map Prod.fst →
    alookup k (l.foldl (fun fp kv => dictInsert fp kv.1 kv.2) d) = alookup k d := by
  induction l with
  | nil =>
    intro d k _
    rfl
  | cons kv rest ih =>
    intro d k hk
    simp only [List.map_cons, List.mem_cons] at hk
    push_neg at hk
    simp only [List.foldl_cons]
    rw [ih (dictInsert d kv.1 kv.2) k (by simpa using hk.2)]
    exact alookup_dictInsert_ne d kv.1 k kv.2 hk.1

theorem alookup_foldl_dictInsert_pres {α β : Type} [DecidableEq α]
    (l : List (α × β)) :
    ∀ (d : List (α × β)) (k : α), (alookup k d).isSome = true →
    (alookup k (l.foldl (fun fp kv => dictInsert fp kv.1 kv.2) d)).isSome = true := by
  induction l with
  | nil =>
    intro d k h
    exact h
  | cons kv rest ih =>
    intro d k h
    simp only [List.foldl_cons]
    exact ih (dictInsert d kv.1 kv.2) k
      (isSome_alookup_dictInsert d k kv.1 kv.2 (Or.inl h))

theorem alookup_foldl_dictInsert_mem {α β : Type} [DecidableEq α]
    (l : List (α × β)) :
    ∀ (d : List (α × β)) (k : α) (v : β), (k, v) ∈ l → (l.map Prod.fst).Nodup →
    alookup k (l.foldl (fun fp kv => dictInsert fp kv.1 kv.2) d) = some v := by
  induction l with
  | nil =>
    intro d k v hm _
    simp at hm
  | cons kv rest ih =>
    intro d k v hm hnd
    simp only [List.map_cons, List.nodup_cons] at hnd
    simp only [List.foldl_cons]
    rcases List.mem_cons.mp hm with hm | hm
    · have hk : k ∉ rest.map Prod.fst := by
        rw [← hm] at hnd
        exact hnd.1
      rw [alookup_foldl_dictInsert_not_mem rest (dictInsert d kv.1 kv.2) k hk, ← hm]
      exact alookup_dictInsert_self d k v
    · exact ih (dictInsert d kv.1 kv.2) k v hm hnd.2

theorem filterMap_alookup_keys {α β : Type} [DecidableEq α]
    (l fp1 : List (α × β))
    (h : ∀ kv ∈ l, (alookup kv.1 fp1).isSome = true) :
    (l.filterMap (fun kv => (alookup kv.1 fp1).map (fun v => (kv.1, v)))).map Prod.fst
      = l.map Prod.fst := by
  induction l with
  | nil => rfl
  | cons kv rest ih =>
    obtain ⟨v, hv⟩ := Option.isSome_iff_exists.mp (h kv (List.mem_cons_self kv rest))
    simp [List.filterMap_cons, hv, ih (fun x hx => h x (List.mem_cons_of_mem kv hx))]

/-! ### Tile-store membership lemmas -/

theorem mem_addEventFromTile (ev : EventRecord) (tile : Tile) (m : Maze) :
    (tile, ev) ∈ (addEventFromTile ev tile m).events := by
  unfold addEventFromTile
  by_cases h : (tile, ev) ∈ m.events
  · rw [if_pos h]
    exact h
  · rw [if_neg h]
    simp

theorem not_mem_removeEventFromTile (ev : EventRecord) (tile : Tile) (m : Maze) :
    (tile, ev) ∉ (removeEventFromTile ev tile m).events := by
  intro h
  simp only [removeEventFromTile, List.mem_filter, decide_eq_true_eq] at h
  exact h.2 rfl

theorem mem_removeEventFromTile_of_ne (x : Tile × EventRecord) (ev : EventRecord)
    (tile : Tile) (m : Maze) (h : x ∈ m.events) (hne : x ≠ (tile, ev)) :
    x ∈ (removeEventFromTile ev tile m).events := by
  simp only [removeEventFromTile, List.mem_filter, decide_eq_true_eq]
  exact ⟨h, hne⟩

/-! ### Concrete fixtures -/

/-- A sample agent event (subject is the persona). -/
def ev0 : EventRecord := ⟨"Isabella Rodriguez", some "is", some "sleeping", some "sleeping"⟩

/-- A sample object-interaction event (subject is a game object). -/
def objEv0 : EventRecord := ⟨"bed", some "is", some "unmade", some "unmade"⟩

/-- A sample arrived persona (empty queued path). -/
def persona0 : Persona := ⟨"Isabella Rodriguez", [], ev0, objEv0, "", none, (1, 1)⟩

/-- A sample server state with one registered persona at tile (1,1). -/
def st0 : ServerState :=
  ⟨0, 0, 600, [persona0], [("Isabella Rodriguez", (1, 1))], ⟨[]⟩, [], 0,
    [("Isabella Rodriguez", (1, 1))]⟩

/-- A sample environment update moving the persona to tile (2,2). -/
def fd0 : List (String × Tile) := [("Isabella Rodriguez", (2, 2))]

/-- A decide cycle that keeps every persona in place and returns normally. -/
def decideFn0 : DecideFn := fun _ _ p tile _ _ => Except.ok (tile, "", "", p)

theorem decideFn0_total : DecideTotal decideFn0 :=
  fun _ _ p tile _ _ => ⟨(tile, "", "", p), rfl, rfl⟩

/-- A sample in-transit persona (non-empty queued path). -/
def personaW : Persona :=
  ⟨"Walker", [(5, 5)], ⟨"Walker", some "is", some "walking", some "walking"⟩,
    ⟨"door", some "is", some "open", some "open"⟩, "", none, (1, 2)⟩

/-- The tile table for the in-transit persona. -/
def tilesW : List (String × Tile) := [("Walker", (1, 2))]

/-- An environment update for the in-transit persona. -/
def fdW : List (String × Tile) := [("Walker", (1, 3))]

/-- A sample ledger with one pending object event at tile (3,3). -/
def ledger1 : Ledger := [(objEv0, (3, 3))]

/-- Two personas for the failure scenario. -/
def personaA : Persona :=
  ⟨"A", [], ⟨"A", some "is", some "reading", some "reading"⟩,
    ⟨"bed", some "is", some "used", some "used"⟩, "", none, (1, 1)⟩

/-- Second persona of the failure scenario. -/
def personaB : Persona :=
  ⟨"B", [], ⟨"B", some "is", some "writing", some "writing"⟩,
    ⟨"desk", some "is", some "used", some "used"⟩, "", none, (3, 3)⟩

/-- Server state for the failure scenario. -/
def stAB : ServerState :=
  ⟨0, 0, 600, [personaA, personaB], [("A", (1, 1)), ("B", (3, 3))], ⟨[]⟩, [], 0,
    [("A", (1, 1)), ("B", (3, 3))]⟩

/-- Environment update for the failure scenario. -/
def fdAB : List (String × Tile) := [("A", (2, 2)), ("B", (4, 4))]

/-- A decide cycle that raises for persona "A" and returns normally for the
others. -/
def failFn : DecideFn := fun _ _ p tile _ _ =>
  if p.name = "A" then Except.error "AgentDecisionFailure"
  else Except.ok (tile, "", "", p)

/-- Sample environment entry for the snapshot fixtures. -/
def envEntry0 : EnvEntry := ⟨1, 1, (1, 1)⟩

/-- Sample snapshot metadata. -/
def meta0 : ReverieMeta := ⟨"genesis", 0, 0, 600, "the_ville", ["Isabella Rodriguez"], 0⟩

/-- The fork-source snapshot fixture. -/
def snapBase : Snapshot :=
  ⟨meta0, [("Isabella Rodriguez", persona0)], [(0, [("Isabella Rodriguez", envEntry0)])], []⟩

/-- A distinct pre-existing target snapshot fixture. -/
def snapTrial : Snapshot :=
  ⟨{ meta0 with forkSimCode := "other", currTime := 999 }, [], [], []⟩

/-- Storage holding both the fork source and a pre-existing target. -/
def store0 : Store := [("base", snapBase), ("trial1", snapTrial)]

/-- The fork source's tree with its fork-lineage field rewritten. -/
def snapBaseRw : Snapshot :=
  { snapBase with meta := { snapBase.meta with forkSimCode := "base" } }

/-- A sample frontend position table. -/
def fpos0 : List (String × Tile) := [("A", (1, 1))]

/-- A sample backend payload. -/
def bd0 : BackendData := ⟨0, [("A", (5, 5))]⟩

/-- The poll list used in loop witnesses. -/
def polls3 : List (Option (List (String × Tile))) := [some fd0, some fd0, some fd0]

/-- A poll list with an empty poll in the middle. -/
def pollsW : List (Option (List (String × Tile))) := [some fd0, none, some fd0]

/-- The state a loop run ended in. -/
def finState : LoopResult → ServerState
  | .finished st _ _ => st
  | .waiting st _ _ => st
  | .failed _ st _ _ => st

/-- The ledger a loop run ended with. -/
def finLedger : LoopResult → Ledger
  | .finished _ l _ => l
  | .waiting _ l _ => l
  | .failed _ _ l _ => l

/-- The counter a loop run ended with. -/
def finCounter : LoopResult → Int
  | .finished _ _ c => c
  | .waiting _ _ c => c
  | .failed _ _ _ c => c

/-- Whether a loop run finished normally. -/
def isFinished : LoopResult → Bool
  | .finished _ _ _ => true
  | _ => false

/-- Whether a loop run was still waiting for more poll results. -/
def isWaiting : LoopResult → Bool
  | .waiting _ _ _ => true
  | _ => false

/-! ### Claim theorems -/

/-- C1: every completed tick of the `start_server` loop advances the step
counter by exactly 1 and the clock by exactly `sec_per_step`; in particular
a `start_server` run with `sec_per_step = 600` that finishes its 3 requested
ticks ends with `step = startStep + 3` and `currTime = startTime + 1800`
seconds. -/
theorem tick_advances_step_and_clock :
    (∀ (f : DecideFn) (fd : List (String × Tile)) (ledger : Ledger) (st : ServerState),
      (serverTick f fd ledger st).err = none →
      (serverTick f fd ledger st).state.step = st.step + 1 ∧
      (serverTick f fd ledger st).state.currTime = st.currTime + st.secPerStep) ∧
    (∀ (f : DecideFn) (st : ServerState)
      (polls : List (Option (List (String × Tile))))
      (st' : ServerState) (l' : Ledger) (c' : Int),
      st.secPerStep = 600 →
      start_server f st ((3 : Nat) : Int) polls = LoopResult.finished st' l' c' →
      st'.step = st.step + 3 ∧ st'.currTime = st.currTime + 1800) := by
  constructor
  · intro f fd ledger st h
    exact ⟨(serverTick_ok_fields f fd ledger st h).1,
           (serverTick_ok_fields f fd ledger st h).2.1⟩
  · intro f st polls st' l' c' hsec hrun
    unfold start_server at hrun
    obtain ⟨hstep, htime, _⟩ := runLoop_finished_adds f polls 3 []
      { st with backendTime := st.currTime } st' l' c' hrun
    refine ⟨hstep, ?_⟩
    rw [htime]
    show st.currTime + 3 * st.secPerStep = st.currTime + 1800
    rw [hsec]

/-- Witness for C1 at a concrete one-persona state. -/
theorem tick_advances_step_and_clock_witness :
    (serverTick decideFn0 fd0 [] st0).state.step = st0.step + 1 ∧
    (finState (start_server decideFn0 st0 ((3 : Nat) : Int) polls3)).step
      = st0.step + 3 ∧
    (finState (start_server decideFn0 st0 ((3 : Nat) : Int) polls3)).currTime
      = st0.currTime + 1800 := by
  have h2 := tick_advances_step_and_clock.2 decideFn0 st0 polls3
    (finState (start_server decideFn0 st0 ((3 : Nat) : Int) polls3))
    (finLedger (start_server decideFn0 st0 ((3 : Nat) : Int) polls3))
    (finCounter (start_server decideFn0 st0 ((3 : Nat) : Int) polls3))
    rfl (by decide)
  exact ⟨(tick_advances_step_and_clock.1 decideFn0 fd0 [] st0 (by decide)).1,
         h2.1, h2.2⟩

/-- C10: with an environment bridge that keeps supplying updates and agents
whose decide cycles return normally, the `start_server` loop with counter
`n ≥ 0` finishes with counter exactly 0 after exactly `n` completed ticks
(the counter is decremented once per completed tick and tested for equality
with 0 at the top of each iteration); with a negative counter the test never
succeeds and the loop consumes every supplied poll result and keeps going —
it never finishes. -/
theorem start_server_termination :
    (∀ (f : DecideFn) (st : ServerState)
      (polls : List (Option (List (String × Tile)))) (n : Nat),
      DecideTotal f →
      (∀ p ∈ st.personas, (alookup p.name st.personasTile).isSome = true) →
      (∀ fd, some fd ∈ polls → ∀ m ∈ st.personas.map Persona.name,
        (alookup m fd).isSome = true) →
      n ≤ polls.countP Option.isSome →
      ∃ st' l', start_server f st (n : Int) polls = LoopResult.finished st' l' 0 ∧
        st'.step = st.step + n) ∧
    (∀ (f : DecideFn) (st : ServerState)
      (polls : List (Option (List (String × Tile)))) (c : Int),
      c < 0 →
      DecideTotal f →
      (∀ p ∈ st.personas, (alookup p.name st.personasTile).isSome = true) →
      (∀ fd, some fd ∈ polls → ∀ m ∈ st.personas.map Persona.name,
        (alookup m fd).isSome = true) →
      ∃ st' l' c', start_server f st c polls = LoopResult.waiting st' l' c' ∧
        c' < 0) := by
  constructor
  · intro f st polls n hf h1 h2 hn
    unfold start_server
    obtain ⟨st', l', hrun, hstep, _⟩ :=
      runLoop_total f hf polls n [] { st with backendTime := st.currTime } h1 h2 hn
    exact ⟨st', l', hrun, hstep⟩
  · intro f st polls c hc hf h1 h2
    unfold start_server
    exact runLoop_neg f hf polls c [] { st with backendTime := st.currTime } hc h1 h2

/-- Witness for C10: a 2-tick run over three polls finishes at step 2, and a
run with counter -1 over the same polls is still waiting. -/
theorem start_server_termination_witness :
    isFinished (start_server decideFn0 st0 ((2 : Nat) : Int) pollsW) = true ∧
    (finState (start_server decideFn0 st0 ((2 : Nat) : Int) pollsW)).step
      = st0.step + 2 ∧
    isWaiting (start_server decideFn0 st0 (-1) pollsW) = true := by
  have hpolls : ∀ fd, some fd ∈ pollsW → ∀ m ∈ st0.personas.map Persona.name,
      (alookup m fd).isSome = true := by
    intro fd hfd
    have : fd = fd0 := by
      simp only [pollsW, List.mem_cons, List.not_mem_nil, or_false] at hfd
      rcases hfd with h | h | h
      · exact Option.some.inj h
      · exact absurd h (by simp)
      · exact Option.some.inj h
    subst this
    intro m hm
    revert m hm
    decide
  obtain ⟨st', l', hrun, hstep⟩ := start_server_termination.1 decideFn0 st0 pollsW 2
    decideFn0_total (by decide) hpolls (by decide)
  obtain ⟨st2, l2, c2, hrun2, _⟩ := start_server_termination.2 decideFn0 st0 pollsW (-1)
    (by norm_num) decideFn0_total (by decide) hpolls
  refine ⟨?_, ?_, ?_⟩
  · rw [hrun]
    rfl
  · rw [hrun]
    exact hstep
  · rw [hrun2]
    rfl

/-- C2: in every tick that receives an environment update, the first store
operations performed are exactly the idling of every pending-cleanup ledger
entry at its recorded tile, in ledger order; no idle operation occurs
anywhere later in the tick, so every ledger entry (spawned in the previous
tick) is idled before any event of this tick is added; and the ledger coming
out of the tick was rebuilt from empty, holding only object events spawned
this tick by arrived personas. -/
theorem cleanup_idles_before_any_add (f : DecideFn) (fd : List (String × Tile))
    (ledger : Ledger) (st : ServerState) :
    (serverTick f fd ledger st).trace.take ledger.length
      = ledger.map (fun et => StoreOp.idleEvent et.1 et.2) ∧
    (∀ op ∈ (serverTick f fd ledger st).trace.drop ledger.length,
      op.isIdle = false) ∧
    (∀ et ∈ (serverTick f fd ledger st).ledger,
      ∃ p ∈ st.personas, p.plannedPath = [] ∧ et.1 = p.currObjEvent) := by
  have htr := serverTick_trace f fd ledger st
  have hcl := cleanupPhase_trace ledger st.maze
  have hlen : (cleanupPhase ledger st.maze).2.length = ledger.length := by
    rw [hcl]
    simp
  refine ⟨?_, ?_, ?_⟩
  · rw [htr, ← hlen, List.take_left, hcl]
  · intro op hop
    rw [htr, ← hlen, List.drop_left] at hop
    exact movePhase_trace_no_idle fd st.personas _ _ _ op hop
  · intro et het
    rw [serverTick_ledger] at het
    rcases movePhase_ledger_mem fd st.personas st.personasTile []
      (cleanupPhase ledger st.maze).1 et het with h | h
    · simp at h
    · exact h

/-- Witness for C2 at a concrete tick carrying one ledger entry. -/
theorem cleanup_idles_before_any_add_witness :
    (serverTick decideFn0 fd0 ledger1 st0).trace.take ledger1.length
      = ledger1.map (fun et => StoreOp.idleEvent et.1 et.2) ∧
    StoreOp.isIdle (StoreOp.addEvent ev0 (2, 2)) = false ∧
    st0.personas.any
      (fun p => decide (p.plannedPath = []) && decide (objEv0 = p.currObjEvent))
      = true := by
  have h := cleanup_idles_before_any_add decideFn0 fd0 ledger1 st0
  refine ⟨h.1, h.2.1 (StoreOp.addEvent ev0 (2, 2)) (by decide), ?_⟩
  obtain ⟨p, hp, h1, h2⟩ := h.2.2 (objEv0, (2, 2)) (by decide)
  exact List.any_eq_true.mpr ⟨p, hp, by simp [h1, ← h2]⟩

/-- C3: when a persona processed in a tick has an empty queued path (it has
arrived), its move step adds the object-interaction event at the new tile,
records it in the cleanup ledger mapped to the new tile, and removes the
object's blank idle record at that tile (afterwards the blank record is
absent there and, whenever the object event is not itself blank, the object
event is present); when the queued path is non-empty, none of these three
object-event actions happens and the ledger is unchanged. -/
theorem arrived_persona_spawns_object_event (fd : List (String × Tile)) (p : Persona)
    (tiles : List (String × Tile)) (ledger : Ledger) (maze : Maze)
    (currTile newTile : Tile)
    (ht : alookup p.name tiles = some currTile)
    (hf : alookup p.name fd = some newTile) :
    (p.plannedPath = [] →
      (moveStep fd p tiles ledger maze).trace =
        [StoreOp.removeSubject p.name currTile,
         StoreOp.addEvent p.currEvent newTile,
         StoreOp.addEvent p.currObjEvent newTile,
         StoreOp.removeEvent (blankOf p.currObjEvent) newTile] ∧
      (moveStep fd p tiles ledger maze).ledger
        = dictInsert ledger p.currObjEvent newTile ∧
      (newTile, blankOf p.currObjEvent) ∉ (moveStep fd p tiles ledger maze).maze.events ∧
      (p.currObjEvent ≠ blankOf p.currObjEvent →
        (newTile, p.currObjEvent) ∈ (moveStep fd p tiles ledger maze).maze.events)) ∧
    (p.plannedPath ≠ [] →
      (moveStep fd p tiles ledger maze).trace =
        [StoreOp.removeSubject p.name currTile,
         StoreOp.addEvent p.currEvent newTile] ∧
      (moveStep fd p tiles ledger maze).ledger = ledger) := by
  constructor
  · intro hp
    have hstep : moveStep fd p tiles ledger maze =
        ⟨dictInsert tiles p.name newTile,
         dictInsert ledger p.currObjEvent newTile,
         removeEventFromTile (blankOf p.currObjEvent) newTile
           (addEventFromTile p.currObjEvent newTile
             (addEventFromTile p.currEvent newTile
               (removeSubjectEventsFromTile p.name currTile maze))),
         [StoreOp.removeSubject p.name currTile,
          StoreOp.addEvent p.currEvent newTile,
          StoreOp.addEvent p.currObjEvent newTile,
          StoreOp.removeEvent (blankOf p.currObjEvent) newTile], none⟩ := by
      unfold moveStep
      rw [ht, hf]
      simp only [if_pos hp]
    rw [hstep]
    refine ⟨rfl, rfl, not_mem_removeEventFromTile _ _ _, ?_⟩
    intro hne
    apply mem_removeEventFromTile_of_ne
    · exact mem_addEventFromTile _ _ _
    · intro h
      exact hne (congrArg Prod.snd h)
  · intro hp
    have hstep : moveStep fd p tiles ledger maze =
        ⟨dictInsert tiles p.name newTile, ledger,
         addEventFromTile p.currEvent newTile
           (removeSubjectEventsFromTile p.name currTile maze),
         [StoreOp.removeSubject p.name currTile,
          StoreOp.addEvent p.currEvent newTile], none⟩ := by
      unfold moveStep
      rw [ht, hf]
      simp only [if_neg hp]
    rw [hstep]
    exact ⟨rfl, rfl⟩

/-- Witness for C3 at an arrived and an in-transit persona. -/
theorem arrived_persona_spawns_object_event_witness :
    (moveStep fd0 persona0 [("Isabella Rodriguez", (1, 1))] [] (Maze.mk [])).ledger
      = dictInsert [] objEv0 (2, 2) ∧
    ((2, 2), blankOf objEv0)
      ∉ (moveStep fd0 persona0 [("Isabella Rodriguez", (1, 1))] [] (Maze.mk [])).maze.events ∧
    (moveStep fdW personaW tilesW [] (Maze.mk [])).ledger = [] := by
  have h1 := (arrived_persona_spawns_object_event fd0 persona0
    [("Isabella Rodriguez", (1, 1))] [] (Maze.mk []) (1, 1) (2, 2)
    (by decide) (by decide)).1 (by decide)
  have h2 := (arrived_persona_spawns_object_event fdW personaW tilesW [] (Maze.mk [])
    (1, 2) (1, 3) (by decide) (by decide)).2 (by decide)
  exact ⟨h1.2.1, h1.2.2.1, h2.2⟩

/-- C8: a `None` poll result from the environment bridge mutates nothing —
the loop carries the identical counter, ledger and server state into the
next poll; a run whose polls are all empty is still waiting with the state
untouched; and over two empty polls followed by a real update, the tick is
applied exactly once (the step counter moves by exactly 1). -/
theorem null_poll_no_mutation :
    (∀ (f : DecideFn) (c : Int) (ledger : Ledger) (st : ServerState)
      (rest : List (Option (List (String × Tile)))),
      runLoop f c ledger st (none :: rest) = runLoop f c ledger st rest) ∧
    (∀ (f : DecideFn) (c : Int) (ledger : Ledger) (st : ServerState),
      c ≠ 0 →
      runLoop f c ledger st [none, none] = LoopResult.waiting st ledger c) ∧
    (∀ (f : DecideFn) (fd : List (String × Tile)) (ledger : Ledger) (st : ServerState),
      (serverTick f fd ledger st).err = none →
      runLoop f 1 ledger st [none, none, some fd] =
        LoopResult.finished (serverTick f fd ledger st).state
          (serverTick f fd ledger st).ledger 0 ∧
      (serverTick f fd ledger st).state.step = st.step + 1) := by
  refine ⟨?_, ?_, ?_⟩
  · intro f c ledger st rest
    by_cases hc : c = 0
    · cases rest <;> simp [runLoop, hc]
    · simp [runLoop, hc]
  · intro f c ledger st hc
    simp [runLoop, hc]
  · intro f fd ledger st herr
    constructor
    · have h1 : (1 : Int) ≠ 0 := by norm_num
      simp only [runLoop, if_neg h1, herr]
      norm_num [runLoop]
    · exact (serverTick_ok_fields f fd ledger st herr).1

/-- Witness for C8 at a concrete state. -/
theorem null_poll_no_mutation_witness :
    runLoop decideFn0 5 [] st0 [none, none] = LoopResult.waiting st0 [] 5 ∧
    runLoop decideFn0 1 [] st0 [none, none, some fd0] =
      LoopResult.finished (serverTick decideFn0 fd0 [] st0).state
        (serverTick decideFn0 fd0 [] st0).ledger 0 :=
  ⟨null_poll_no_mutation.2.1 decideFn0 5 [] st0 (by norm_num),
   (null_poll_no_mutation.2.2 decideFn0 fd0 [] st0 (by decide)).1⟩

/-- C4 counterexample: constructing with fork source `"base"` into target
`"trial1"` while `"trial1"` already exists does not fail with any conflict:
it succeeds, and the pre-existing target tree is replaced by the rewritten
copy of the source, so the old target content does not survive. -/
theorem construction_overwrites_target_cex :
    (reverieServerInit "base" "trial1" store0).isSome = true ∧
    (reverieInitStorage "base" "trial1" store0).map (fun r => storeLookup "trial1" r.1)
      = some (some snapBaseRw) ∧
    snapBaseRw ≠ snapTrial := by decide

/-- C4 amended: when the target snapshot id already exists, construction does
not fail: the storage step deletes the pre-existing target tree and, for a
distinct existing fork source, succeeds with the target bound to the copied
source tree whose fork-lineage field was rewritten; the pre-existing target
content is gone. -/
theorem construction_overwrites_target (fork sim : String) (store : Store)
    (snapA : Snapshot) (hne : fork ≠ sim)
    (hT : (storeLookup sim store).isSome = true)
    (hA : storeLookup fork store = some snapA) :
    reverieInitStorage fork sim store
      = some (storeInsert sim
            { snapA with meta := { snapA.meta with forkSimCode := fork } }
            (storeErase sim store),
          { snapA with meta := { snapA.meta with forkSimCode := fork } }) ∧
    storeLookup sim (storeInsert sim
        { snapA with meta := { snapA.meta with forkSimCode := fork } }
        (storeErase sim store))
      = some { snapA with meta := { snapA.meta with forkSimCode := fork } } := by
  have h := reverieInitStorage_eq fork sim store snapA hne hA
  rw [if_pos hT] at h
  exact ⟨h, storeLookup_insert_self _ _ _⟩

/-- Witness for the amended C4 at the concrete two-snapshot storage. -/
theorem construction_overwrites_target_witness :
    reverieInitStorage "base" "trial1" store0
      = some (storeInsert "trial1" snapBaseRw (storeErase "trial1" store0),
          snapBaseRw) ∧
    storeLookup "trial1" (storeInsert "trial1" snapBaseRw (storeErase "trial1" store0))
      = some snapBaseRw :=
  construction_overwrites_target "base" "trial1" store0 snapBase
    (by decide) (by decide) (by decide)

/-- C5: forking snapshot A into B copies A's whole persisted tree — the
per-agent sub-state, the per-step environment and movement histories, and
the metadata with only the fork-lineage field rewritten to A's id — and the
two trees share nothing afterwards: overwriting A's tree or deleting it
leaves B's tree and what loads from it unchanged, and overwriting B's tree
leaves A's unchanged. -/
theorem fork_is_structural_copy (fork sim : String) (store : Store) (snapA : Snapshot)
    (hne : fork ≠ sim) (hA : storeLookup fork store = some snapA) :
    ∃ store' snapB, reverieInitStorage fork sim store = some (store', snapB) ∧
      snapB.meta.forkSimCode = fork ∧
      snapB.meta = { snapA.meta with forkSimCode := fork } ∧
      snapB.personaStates = snapA.personaStates ∧
      snapB.environment = snapA.environment ∧
      snapB.movement = snapA.movement ∧
      storeLookup sim store' = some snapB ∧
      (∀ x, storeLookup sim (storeInsert fork x store') = some snapB) ∧
      storeLookup sim (storeErase fork store') = some snapB ∧
      loadFromStore sim (storeErase fork store') = loadServer snapB ∧
      storeLookup fork store' = some snapA ∧
      (∀ x, storeLookup fork (storeInsert sim x store')
        = storeLookup fork store') := by
  have h := reverieInitStorage_eq fork sim store snapA hne hA
  refine ⟨storeInsert sim
      { snapA with meta := { snapA.meta with forkSimCode := fork } }
      (if (storeLookup sim store).isSome then storeErase sim store else store),
    { snapA with meta := { snapA.meta with forkSimCode := fork } },
    h, rfl, rfl, rfl, rfl, rfl, storeLookup_insert_self _ _ _, ?_, ?_, ?_, ?_, ?_⟩
  · intro x
    rw [storeLookup_insert_ne fork sim x _ (Ne.symm hne)]
    exact storeLookup_insert_self _ _ _
  · rw [storeLookup_erase_ne fork sim _ (Ne.symm hne)]
    exact storeLookup_insert_self _ _ _
  · unfold loadFromStore
    rw [storeLookup_erase_ne fork sim _ (Ne.symm hne), storeLookup_insert_self]
    rfl
  · rw [storeLookup_insert_ne sim fork _ _ hne]
    by_cases hs : (storeLookup sim store).isSome = true
    · rw [if_pos hs, storeLookup_erase_ne sim fork store hne]
      exact hA
    · rw [if_neg hs]
      exact hA
  · intro x
    exact storeLookup_insert_ne sim fork x _ hne

/-- Witness for C5 at the concrete two-snapshot storage. -/
theorem fork_is_structural_copy_witness :
    (reverieInitStorage "base" "trial1" store0).isSome = true ∧
    (reverieInitStorage "base" "trial1" store0).map (fun r => r.2.meta.forkSimCode)
      = some "base" := by
  obtain ⟨store', snapB, h1, h2, _⟩ :=
    fork_is_structural_copy "base" "trial1" store0 snapBase (by decide) (by decide)
  rw [h1]
  exact ⟨rfl, by simp [h2]⟩

/-- C6 counterexample: a successful tick from step 0 at time 0 with
`sec_per_step = 600` moves the step counter to 1 and the clock to 600, yet
the movement batch is stored at key 0, the pre-increment step, with
`meta.curr_time` 0, the pre-advance clock: nothing is stored at the new step
index and the recorded meta time is not the post-tick clock. -/
theorem movement_batch_at_old_step_cex :
    (serverTick decideFn0 fd0 [] st0).err = none ∧
    (serverTick decideFn0 fd0 [] st0).state.step = 1 ∧
    (serverTick decideFn0 fd0 [] st0).state.currTime = 600 ∧
    alookup 1 (serverTick decideFn0 fd0 [] st0).state.movementFiles = none ∧
    (alookup 0 (serverTick decideFn0 fd0 [] st0).state.movementFiles).map
        Movements.metaCurrTime = some 0 := by decide

/-- C6 amended: after each successful tick the movement batch, holding one
record per registered agent, is persisted keyed by the pre-increment step
index (one less than the new step value), and its `meta.curr_time` mirrors
the clock before the advance (the post-tick clock minus `sec_per_step`). -/
theorem movement_batch_at_old_step (f : DecideFn) (fd : List (String × Tile))
    (ledger : Ledger) (st : ServerState)
    (h : (serverTick f fd ledger st).err = none) :
    (serverTick f fd ledger st).state.movementFiles
      = dictInsert st.movementFiles st.step
          ⟨(tickDecidePhase f fd ledger st).movements, st.currTime⟩ ∧
    alookup st.step (serverTick f fd ledger st).state.movementFiles
      = some ⟨(tickDecidePhase f fd ledger st).movements, st.currTime⟩ ∧
    (serverTick f fd ledger st).state.step = st.step + 1 ∧
    (serverTick f fd ledger st).state.currTime = st.currTime + st.secPerStep ∧
    (∀ p ∈ st.personas,
      (alookup p.name (tickDecidePhase f fd ledger st).movements).isSome = true) := by
  obtain ⟨h1, h2⟩ := (serverTick_err_iff f fd ledger st).mp h
  have heq := serverTick_ok_eq f fd ledger st h1 h2
  refine ⟨by rw [heq], ?_, by rw [heq], by rw [heq], ?_⟩
  · rw [heq]
    exact alookup_dictInsert_self _ _ _
  · intro p hp
    exact decidePhase_movements f st.currTime (tickMovePhase fd ledger st).tiles
      (tickMovePhase fd ledger st).maze st.personas [] [] st.backendPos h2 p.name
      (Or.inr (List.mem_map_of_mem Persona.name hp))

/-- Witness for the amended C6 at a concrete tick. -/
theorem movement_batch_at_old_step_witness :
    alookup st0.step (serverTick decideFn0 fd0 [] st0).state.movementFiles
      = some ⟨(tickDecidePhase decideFn0 fd0 [] st0).movements, st0.currTime⟩ ∧
    (serverTick decideFn0 fd0 [] st0).state.step = st0.step + 1 ∧
    (alookup persona0.name
      (tickDecidePhase decideFn0 fd0 [] st0).movements).isSome = true := by
  have h := movement_batch_at_old_step decideFn0 fd0 [] st0 (by decide)
  exact ⟨h.2.1, h.2.2.1, h.2.2.2.2 persona0 (by decide)⟩

/-- C7 counterexample: with two personas whose first one's decide cycle
raises, the tick aborts: the exception escapes, no movement batch is
persisted (so the second persona's decision is recorded nowhere), the step
counter and clock stay put, and the failing persona does not keep its
previous tile (1,1) — the move phase had already set it to the
bridge-reported tile (2,2). -/
theorem agent_failure_aborts_tick_cex :
    (serverTick failFn fdAB [] stAB).err = some "AgentDecisionFailure" ∧
    (serverTick failFn fdAB [] stAB).state.movementFiles = [] ∧
    (serverTick failFn fdAB [] stAB).state.step = stAB.step ∧
    (serverTick failFn fdAB [] stAB).state.currTime = stAB.currTime ∧
    alookup "A" stAB.personasTile = some (1, 1) ∧
    alookup "A" (serverTick failFn fdAB [] stAB).state.personasTile = some (2, 2) := by
  decide

/-- C7 amended: an exception raised while processing one agent aborts the
whole tick rather than being contained: it propagates to the caller, the
tick's movement batch is never persisted, and the step counter and clock are
not advanced (while the tile and event-store mutations already applied in
the earlier move phase persist). -/
theorem agent_failure_aborts_tick (f : DecideFn) (fd : List (String × Tile))
    (ledger : Ledger) (st : ServerState) (e : String)
    (h : (serverTick f fd ledger st).err = some e) :
    (serverTick f fd ledger st).state.movementFiles = st.movementFiles ∧
    (serverTick f fd ledger st).state.step = st.step ∧
    (serverTick f fd ledger st).state.currTime = st.currTime :=
  serverTick_err_state f fd ledger st e h

/-- Witness for the amended C7 at the concrete failing tick. -/
theorem agent_failure_aborts_tick_witness :
    (serverTick failFn fdAB [] stAB).state.movementFiles = stAB.movementFiles ∧
    (serverTick failFn fdAB [] stAB).state.step = stAB.step :=
  ⟨(agent_failure_aborts_tick failFn fdAB [] stAB "AgentDecisionFailure" (by decide)).1,
   (agent_failure_aborts_tick failFn fdAB [] stAB "AgentDecisionFailure" (by decide)).2.1⟩

/-- C9 counterexample: `sim_frontend` called with step index 5 records the
environment mapping under key 6, not under the given step index 5. -/
theorem sim_frontend_records_successor_cex :
    (sim_frontend fpos0 bd0 5).2.2.1 = 6 ∧
    (sim_frontend fpos0 bd0 5).2.2.1 ≠ 5 := by decide

/-- C9 amended: the headless bridge returns a mapping whose keys are exactly
the backend's agents and whose values are the last backend-reported
positions of those agents, and it durably records exactly the returned
mapping — but keyed by the successor of the given step index, not by the
given step index itself. -/
theorem sim_frontend_echoes_positions (fp : List (String × Tile)) (bd : BackendData)
    (step : Nat) (hnd : (bd.persona.map Prod.fst).Nodup) :
    (sim_frontend fp bd step).2.2 = (step + 1, (sim_frontend fp bd step).2.1) ∧
    (∀ k v, (k, v) ∈ bd.persona → (k, v) ∈ (sim_frontend fp bd step).2.1) ∧
    (sim_frontend fp bd step).2.1.map Prod.fst = bd.persona.map Prod.fst := by
  refine ⟨rfl, ?_, ?_⟩
  · intro k v hm
    simp only [sim_frontend]
    apply List.mem_filterMap.mpr
    refine ⟨(k, v), hm, ?_⟩
    rw [alookup_foldl_dictInsert_mem bd.persona fp k v hm hnd]
    rfl
  · simp only [sim_frontend]
    apply filterMap_alookup_keys
    intro kv hkv
    rw [alookup_foldl_dictInsert_mem bd.persona fp kv.1 kv.2 (by simpa using hkv) hnd]
    rfl

/-- Witness for the amended C9 at a concrete call. -/
theorem sim_frontend_echoes_positions_witness :
    (sim_frontend fpos0 bd0 5).2.2 = (6, (sim_frontend fpos0 bd0 5).2.1) ∧
    ("A", (5, 5)) ∈ (sim_frontend fpos0 bd0 5).2.1 := by
  have h := sim_frontend_echoes_positions fpos0 bd0 5 (by decide)
  exact ⟨h.1, h.2.1 "A" (5, 5) (by decide)⟩
